import Mathlib

set_option autoImplicit false

/-!
Verification development for the PyAutoFit expectation-propagation core.

The definitions below embed, as executable Lean functions, the code of
`src/autofit/graphical/expectation_propagation/ep_mean_field.py`,
`src/autofit/mapper/operator.py`, `src/autofit/mapper/model_object.py` and
`src/autofit/graphical/utils.py`.  The supporting types that the repository
imports from modules not present in the source tree (`MeanField`, `Factor`,
`FactorGraph`, `AbstractMessage`, `FactorHistory`) are modelled from the
specification, as indicated in their doc comments.
-/

namespace PyAutoFit

/-- Modelled from the spec: `Variable` is an identity-only entity (spec §3),
so a bare natural-number identifier represents it. -/
abbrev Variable := Nat

/-- Modelled from the spec: `AbstractMessage` is not under `src/`.  A Message
is an immutable value parametrized by exponential-family natural parameters
(spec §3); a Gaussian natural-parameter pair is represented by two rationals. -/
structure Message where
  eta1 : ℚ
  eta2 : ℚ
deriving DecidableEq, Repr

/-- Modelled from the spec: the product of two Messages combines independent
beliefs by natural-parameter arithmetic (spec §3); for exponential families
this is addition of natural parameters. -/
def Message.mul (a b : Message) : Message :=
  ⟨a.eta1 + b.eta1, a.eta2 + b.eta2⟩

instance : Mul Message := ⟨Message.mul⟩

/-- Modelled from the spec: the multiplicative identity Message, "scalar 1,
representing no information" (spec §3). -/
def Message.one : Message := ⟨0, 0⟩

instance : One Message := ⟨Message.one⟩

instance : CommMonoid Message where
  mul_assoc a b c := by
    show Message.mul (Message.mul a b) c = Message.mul a (Message.mul b c)
    simp [Message.mul, add_assoc]
  one_mul a := by
    show Message.mul Message.one a = a
    simp [Message.mul, Message.one]
  mul_one a := by
    show Message.mul a Message.one = a
    simp [Message.mul, Message.one]
  mul_comm a b := by
    show Message.mul a b = Message.mul b a
    simp [Message.mul, add_comm]

/-- First-match association-list lookup, the observable behaviour of a Python
dict lookup `d[v]` returning `none` where Python raises `KeyError`. -/
def lookupVar (l : List (Variable × Message)) (v : Variable) : Option Message :=
  match l with
  | [] => none
  | (k, x) :: rest => if k = v then some x else lookupVar rest v

/-- Modelled from the spec: `MeanField` is a mapping Variable → Message
(spec §3), represented as an association list in insertion order, which is
the observable content of a Python dict. -/
structure MeanField where
  entries : List (Variable × Message)
deriving DecidableEq, Repr

/-- Dict lookup on a MeanField. -/
def MeanField.get (m : MeanField) (v : Variable) : Option Message :=
  lookupVar m.entries v

/-- The keys of the MeanField, i.e. its variables (`MeanField.all_variables`
in the repository, used at `ep_mean_field.py:140`). -/
def MeanField.allVariables (m : MeanField) : List Variable :=
  m.entries.map Prod.fst

/-- Embeds `MeanField({v: 1. for v in vs})` (`ep_mean_field.py:138` and
`:171`): the identity MeanField over the given variables; the dict
comprehension keeps one entry per distinct variable. -/
def MeanField.identity (vs : List Variable) : MeanField :=
  ⟨vs.dedup.map (fun v => (v, (1 : Message)))⟩

/-- Modelled from the spec: pairwise MeanField product — pointwise product of
Messages sharing a Variable key, passthrough for keys present in only one
operand (spec §4.1). -/
def MeanField.mulMF (m1 m2 : MeanField) : MeanField :=
  ⟨m1.entries.map (fun p =>
      (p.1, match m2.get p.1 with
            | some y => p.2 * y
            | none => p.2))
   ++ m2.entries.filter (fun p => (m1.get p.1).isNone)⟩

/-- Modelled from the spec: `MeanField.prod(*others)` folds the pairwise
product over the operands (spec §4.1). -/
def MeanField.prod (m : MeanField) (ms : List MeanField) : MeanField :=
  ms.foldl MeanField.mulMF m

/-- Pointwise combination of optional messages, describing what a lookup
sees across a MeanField product: product on overlap, passthrough
otherwise. -/
def optMul : Option Message → Option Message → Option Message
  | some x, some y => some (x * y)
  | some x, none => some x
  | none, o => o

/-- Modelled from the spec: `MeanField.log_norm` is the sum of per-variable
log-normalisation constants (spec §4.1), for a family whose per-Message
log-norm is `ln`. -/
def MeanField.log_norm (ln : Message → ℚ) (m : MeanField) : ℚ :=
  (m.entries.map (fun p => ln p.2)).sum

/-- Modelled from the spec: `AbstractMessage.log_normalisation(*ms)` is the
aggregate log-normalisation of the product of the messages (spec §4.2),
used at `ep_mean_field.py:192`. -/
def logNormalisation (ln : Message → ℚ) (ms : List Message) : ℚ :=
  ln ms.prod

/-- Modelled from the spec: a `Factor` associates a function with a fixed,
ordered set of free and deterministic variables (spec §3).  The function
itself plays no role in any claim, so a numeric tag stands for it. -/
structure Factor where
  fid : Nat
  free : List Variable
  deterministicVariables : List Variable
deriving DecidableEq, Repr

/-- Modelled from the spec: `Factor.all_variables` is the union of the free
and deterministic variables of the factor (spec §3: free ∪ deterministic);
a set union is one entry per distinct variable. -/
def Factor.allVariables (f : Factor) : List Variable :=
  (f.free ++ f.deterministicVariables).dedup

/-- Modelled from the spec: a `FactorGraph` owns a set of Factors and derives
the distinct variables from them (spec §3). -/
structure FactorGraph where
  factors : List Factor
deriving DecidableEq, Repr

/-- Modelled from the spec: the distinct variables of the graph, derived from
its factors (spec §3); this is `self.all_variables` used at
`ep_mean_field.py:172` and `:182`. -/
def FactorGraph.allVariables (g : FactorGraph) : List Variable :=
  (g.factors.map Factor.allVariables).flatten.dedup

/-- Embeds `Status` (`src/autofit/graphical/utils.py:15`): a success flag
plus diagnostic messages; boolean conversion returns the flag. -/
structure Status where
  success : Bool
  messages : List String
deriving DecidableEq, Repr

/-- Embeds `Status.__bool__` (`utils.py:19`). -/
def Status.toBool (st : Status) : Bool := st.success

/-- First-match lookup keyed by Factor: `factor_mean_field[factor]`,
`none` where Python raises `KeyError`. -/
def fmfGet (l : List (Factor × MeanField)) (f : Factor) : Option MeanField :=
  match l with
  | [] => none
  | (k, x) :: rest => if k = f then some x else fmfGet rest f

/-- Removal of a key: `factor_mean_field.pop(factor)` leaves the remaining
entries in order (`ep_mean_field.py:137`). -/
def fmfErase (l : List (Factor × MeanField)) (f : Factor) : List (Factor × MeanField) :=
  match l with
  | [] => []
  | (k, x) :: rest => if k = f then fmfErase rest f else (k, x) :: fmfErase rest f

/-- Python dict assignment `d[f] = mf`: replaces the value at an existing key
in place, otherwise appends the new entry (`ep_mean_field.py:160`). -/
def assocSet (l : List (Factor × MeanField)) (f : Factor) (d : MeanField) :
    List (Factor × MeanField) :=
  match l with
  | [] => [(f, d)]
  | (k, x) :: rest => if k = f then (k, d) :: rest else (k, x) :: assocSet rest f d

/-- Embeds `EPMeanField` (`ep_mean_field.py:21`): the factor graph plus the
contents of the `_factor_mean_field` dict. -/
structure EPMeanField where
  factor_graph : FactorGraph
  fmf : List (Factor × MeanField)
deriving DecidableEq, Repr

/-- Embeds `EPMeanField.all_variables`: the super-initialisation at
`ep_mean_field.py:72` makes the approximation a FactorGraph over the same
factors, so its variables are the graph's. -/
def EPMeanField.allVariables (e : EPMeanField) : List Variable :=
  e.factor_graph.allVariables

/-- Embeds `FactorApproximation` as constructed at `ep_mean_field.py:147`:
factor, cavity distribution, factor distribution and model distribution. -/
structure FactorApproximation where
  factor : Factor
  cavity_dist : MeanField
  factor_dist : MeanField
  model_dist : MeanField
deriving DecidableEq, Repr

/-- Embeds `EPMeanField.factor_approximation` (`ep_mean_field.py:114-152`):
pop the factor's own MeanField, seed the cavity with the identity MeanField
over the factor's variables, multiply in every remaining factor's MeanField,
and form the model as `factor_dist.prod(cavity_dist)`.  Returns `none` where
`pop` raises `KeyError`. -/
def EPMeanField.factor_approximation (e : EPMeanField) (factor : Factor) :
    Option FactorApproximation :=
  match fmfGet e.fmf factor with
  | none => none
  | some factor_dist =>
    let rest := fmfErase e.fmf factor
    let cavity_dist :=
      (MeanField.identity factor_dist.allVariables).prod (rest.map Prod.snd)
    let model_dist := factor_dist.prod [cavity_dist]
    some ⟨factor, cavity_dist, factor_dist, model_dist⟩

/-- Embeds `EPMeanField.mean_field` (`ep_mean_field.py:169-175`): the product
of all factors' MeanFields seeded with the identity MeanField over every
variable of the graph. -/
def EPMeanField.meanField (e : EPMeanField) : MeanField :=
  (MeanField.identity e.allVariables).prod (e.fmf.map Prod.snd)

/-- Embeds the per-variable entry of `EPMeanField.variable_messages`
(`ep_mean_field.py:180-187`): the messages mentioning `v`, collected across
the factor MeanFields in enumeration order. -/
def EPMeanField.variableMessages (e : EPMeanField) (v : Variable) : List Message :=
  ((e.fmf.map (fun p => (p.2.entries.filter (fun q => q.1 = v)).map Prod.snd))).flatten

/-- Embeds the `KeyError` raised by `variable_messages` when some factor
MeanField holds a variable outside `all_variables`
(`ep_mean_field.py:185`). -/
def EPMeanField.hasStrayKey (e : EPMeanField) : Bool :=
  e.fmf.any (fun p => p.2.entries.any (fun q => !(decide (q.1 ∈ e.allVariables))))

/-- Embeds one entry of `EPMeanField.variable_evidence`
(`ep_mean_field.py:190-194`): the log-normalisation of all messages
referencing the variable. -/
def EPMeanField.variableEvidence (ln : Message → ℚ) (e : EPMeanField) (v : Variable) : ℚ :=
  logNormalisation ln (e.variableMessages v)

/-- Embeds the arithmetic of `EPMeanField.log_evidence`
(`ep_mean_field.py:222-229`): the sum over factors of the factor MeanField's
log-norm minus its variables' evidences, plus the sum of all variable
evidences. -/
def EPMeanField.logEvidenceCore (ln : Message → ℚ) (e : EPMeanField) : ℚ :=
  (e.fmf.map (fun p =>
      MeanField.log_norm ln p.2
        - (p.1.allVariables.map (e.variableEvidence ln)).sum)).sum
  + (e.allVariables.map (e.variableEvidence ln)).sum

/-- Embeds `EPMeanField.log_evidence` (`ep_mean_field.py:203-229`) as a
fallible computation: it raises when `variable_messages` hits a stray key,
otherwise it returns the evidence scalar. -/
def EPMeanField.log_evidence (ln : Message → ℚ) (e : EPMeanField) : Except Unit ℚ :=
  if e.hasStrayKey then Except.error () else Except.ok (e.logEvidenceCore ln)

/-- Embeds `EPMeanField.__repr__` (`ep_mean_field.py:231-240`): the raw
evidence computation runs inside `try`, an exception is logged and rendered
as `float("nan")`, and the formatted string is always produced. -/
def EPMeanField.reprString (ln : Message → ℚ) (e : EPMeanField) : String :=
  let log_evidence :=
    match e.log_evidence ln with
    | Except.ok q => toString q
    | Except.error _ => "nan"
  "EPMeanField(" ++ toString (repr e.factor_graph) ++ ", log_evidence=" ++ log_evidence ++ ")"

/-- Embeds the per-factor dict comprehension
`{v: approx_dists[v] for v in factor.all_variables}`
(`ep_mean_field.py:101-103`): `none` where the lookup raises `KeyError`. -/
def MeanField.fromApproxEntries (approx_dists : List (Variable × Message)) :
    List Variable → Option (List (Variable × Message))
  | [] => some []
  | v :: vs =>
    match lookupVar approx_dists v with
    | none => none
    | some m => (MeanField.fromApproxEntries approx_dists vs).map (fun l => (v, m) :: l)

/-- Embeds the MeanField built for one factor by `from_approx_dists`
(`ep_mean_field.py:101-103`). -/
def MeanField.fromApprox (f : Factor) (approx_dists : List (Variable × Message)) :
    Option MeanField :=
  (MeanField.fromApproxEntries approx_dists f.allVariables).map MeanField.mk

/-- Embeds the outer dict comprehension of `from_approx_dists`
(`ep_mean_field.py:100-105`), one MeanField per factor in graph order. -/
def fmfFromApprox (approx_dists : List (Variable × Message)) :
    List Factor → Option (List (Factor × MeanField))
  | [] => some []
  | f :: fs =>
    match MeanField.fromApprox f approx_dists with
    | none => none
    | some mf => (fmfFromApprox approx_dists fs).map (fun l => (f, mf) :: l)

/-- Embeds `EPMeanField.from_approx_dists` (`ep_mean_field.py:94-110`):
`none` exactly when some factor touches a variable missing from
`approx_dists` (the `KeyError` case). -/
def EPMeanField.from_approx_dists (factor_graph : FactorGraph)
    (approx_dists : List (Variable × Message)) : Option EPMeanField :=
  (fmfFromApprox approx_dists factor_graph.factors).map
    (fun l => ⟨factor_graph, l⟩)

/-! ### Store-based view of the factor-mean-field dict

Python dicts are mutable heap objects: `project_factor_approx` and the
`factor_mean_field` property are observably about aliasing, so the dict an
`EPMeanField` holds is modelled as an index into an explicit store of dict
contents, and the two operations are translated line by line against it. -/

/-- A store of dict contents; an index into it stands for a dict object. -/
abbrev Store := List (List (Factor × MeanField))

/-- Dereference a dict: the contents at the reference. -/
def readDict (s : Store) (r : Nat) : List (Factor × MeanField) :=
  s.getD r []

/-- EPMeanField with its `_factor_mean_field` attribute held by reference. -/
structure EPRef where
  factor_graph : FactorGraph
  fmfRef : Nat
deriving DecidableEq, Repr

/-- Contents of `self._factor_mean_field` for a referenced EPMeanField. -/
def EPRef.readFMF (e : EPRef) (s : Store) : List (Factor × MeanField) :=
  readDict s e.fmfRef

/-- Embeds the `factor_mean_field` property (`ep_mean_field.py:86-88`):
`self._factor_mean_field.copy()` allocates a fresh dict with the same
contents and returns a reference to it. -/
def EPRef.factorMeanFieldProp (e : EPRef) (s : Store) : Nat × Store :=
  (s.length, s ++ [e.readFMF s])

/-- In-place dict assignment `d[f] = mf` on the referenced dict. -/
def dictSetAt (s : Store) (r : Nat) (f : Factor) (d : MeanField) : Store :=
  s.set r (assocSet (readDict s r) f d)

/-- Embeds `EPMeanField.project_factor_approx` (`ep_mean_field.py:154-165`):
take the copying `factor_mean_field` property, assign the projection's
factor distribution at its factor, and build a new EPMeanField around the
copy, returning it with the passed status. -/
def EPRef.project_factor_approx (e : EPRef) (projection : FactorApproximation)
    (status : Option Status) (s : Store) : (EPRef × Option Status) × Store :=
  let rs := e.factorMeanFieldProp s
  let s2 := dictSetAt rs.2 rs.1 projection.factor projection.factor_dist
  ((⟨e.factor_graph, rs.1⟩, status), s2)

/-! ### FactorHistory -/

/-- Modelled from the spec: `FactorHistory` is not under `src/` (only its
test is).  Per spec §4.4 it owns the full ordered log of
(approximation, status) pairs and the successful-subsequence. -/
structure FactorHistory where
  factor : Factor
  history : List (EPMeanField × Status)
  successes : List EPMeanField
deriving DecidableEq, Repr

/-- Modelled from the spec: a fresh history has no entries (spec §4.4,
state *empty*). -/
def FactorHistory.empty (f : Factor) : FactorHistory :=
  ⟨f, [], []⟩

/-- Modelled from the spec: `record(approx, status)` appends unconditionally
to the full log and, when the status is truthy, also to the
successful-subsequence (spec §4.4). -/
def FactorHistory.record (h : FactorHistory) (approx : EPMeanField) (st : Status) :
    FactorHistory :=
  { h with
    history := h.history ++ [(approx, st)]
    successes := if st.toBool then h.successes ++ [approx] else h.successes }

/-- Modelled from the spec: `latest_successful` is the last entry of the
successful-subsequence, an error (`none`) when none exists (spec §4.4). -/
def FactorHistory.latest_successful (h : FactorHistory) : Option EPMeanField :=
  h.successes.getLast?

/-- Modelled from the spec: `previous_successful` is the second-to-last entry
of the successful-subsequence, an error (`none`) with fewer than two
successes (spec §4.4). -/
def FactorHistory.previous_successful (h : FactorHistory) : Option EPMeanField :=
  h.successes.dropLast.getLast?

/-- Record a whole sequence of (approximation, status) outcomes in order. -/
def FactorHistory.runRecords (h : FactorHistory) (rs : List (EPMeanField × Status)) :
    FactorHistory :=
  rs.foldl (fun h r => h.record r.1 r.2) h

/-! ### ModelObject -/

/-- Embeds `ModelObject` (`src/autofit/mapper/model_object.py:97`): the only
state is the id drawn from the class-level counter. -/
structure ModelObject where
  id : Nat
deriving DecidableEq, Repr

/-- Embeds `ModelObject.__init__` (`model_object.py:100-101`): draw
`next(self._ids)` from the global counter, advancing it. -/
def mkModelObject (counter : Nat) : ModelObject × Nat :=
  (⟨counter⟩, counter + 1)

/-- Embeds `ModelObject.__hash__` (`model_object.py:107-108`). -/
def ModelObject.hashValue (x : ModelObject) : Nat := x.id

/-- Embeds `ModelObject.__eq__` (`model_object.py:110-114`): equality of the
ids. -/
def ModelObject.eq (x y : ModelObject) : Bool := x.id == y.id

/-- Construct `n` fresh ModelObjects in sequence, threading the global
counter. -/
def mkModelObjects : Nat → Nat → List ModelObject × Nat
  | c, 0 => ([], c)
  | c, n + 1 =>
    let xc := mkModelObject c
    let rest := mkModelObjects xc.2 n
    (xc.1 :: rest.1, rest.2)

/-! ### Linear operators (`src/autofit/mapper/operator.py`)

The Sherman-Morrison claim is about the concrete instance of a diagonal base
operator on two coordinates, so the operators are embedded on
two-dimensional vectors with exact rational arithmetic. -/

/-- A two-dimensional vector of rationals. -/
abbrev Vec2 := Fin 2 → ℚ

/-- Embeds `DiagonalMatrix.__mul__` (`operator.py:341-343`): left action of
the diagonal operator. -/
def diagMul (scale x : Vec2) : Vec2 := fun i => scale i * x i

/-- Embeds `DiagonalMatrix.__rmul__` (`operator.py:345-347`): right action of
the diagonal operator. -/
def diagRMul (x scale : Vec2) : Vec2 := fun i => x i * scale i

/-- Embeds `LinearOperator.quad` (`operator.py:55-56`),
`(M * self).T * self`, at a diagonal base and a vector argument: both
`numpy` multiplications dispatch to `__rmul__` and transposition of a
one-dimensional array is the identity. -/
def diagQuad (scale u : Vec2) : Vec2 := diagRMul (diagRMul u scale) scale

/-- Embeds `VecOuterProduct.__mul__` (`operator.py:388-390`):
`vec @ vecT.dot(x)`. -/
def outerMul (u x : Vec2) : Vec2 := fun i => u i * (∑ j, u j * x j)

/-- Embeds `ShermanMorrison.__init__`'s `inv_scale = 1 + linear.quad(vec)`
(`operator.py:500`) for a diagonal base operator. -/
def smInvScale (scale u : Vec2) : Vec2 := fun i => 1 + diagQuad scale u i

/-- Embeds `ShermanMorrison.__mul__` (`operator.py:502-504`):
`linear * x + outer * x`. -/
def smMul (scale u x : Vec2) : Vec2 := fun i => diagMul scale x i + outerMul u x i

/-- The dense matrix `D + u uᵗ` the spec compares against. -/
def denseSM (scale u : Vec2) : Fin 2 → Fin 2 → ℚ :=
  fun i j => (if i = j then scale i else 0) + u i * u j

/-- Dense matrix-vector product. -/
def denseMulVec (M : Fin 2 → Fin 2 → ℚ) (x : Vec2) : Vec2 :=
  fun i => ∑ j, M i j * x j

/-- Embeds `DiagonalMatrix.log_det` (`operator.py:357-359`):
`np.sum(np.log(scale))`. -/
noncomputable def diagLogDet (scale : Vec2) : ℝ :=
  ∑ i, Real.log (scale i)

/-- Embeds `ShermanMorrison.log_det` (`operator.py:520-522`):
`linear.log_det + np.log(inv_scale)`; since `inv_scale` is a vector, numpy
broadcasting makes the result a vector. -/
noncomputable def smLogDet (scale u : Vec2) : Fin 2 → ℝ :=
  fun i => diagLogDet scale + Real.log (smInvScale scale u i)

/-- The scalar the claim requires:
`log_det(D) + log(1 + uᵗ D⁻¹ u)` for the diagonal base. -/
noncomputable def smLogDetSpec (scale u : Vec2) : ℝ :=
  diagLogDet scale + Real.log ((1 + ∑ i, u i * (1 / scale i) * u i : ℚ))

/-! ### Concrete inputs used by the closed witness theorems -/

/-- A factor touching variables 0 and 1. -/
def witFA : Factor := ⟨0, [0, 1], []⟩

/-- A factor touching variables 1 and 2. -/
def witFB : Factor := ⟨1, [1, 2], []⟩

/-- A MeanField for `witFA`. -/
def witMFA : MeanField := ⟨[(0, ⟨1, 0⟩), (1, ⟨2, 0⟩)]⟩

/-- A MeanField for `witFB`. -/
def witMFB : MeanField := ⟨[(1, ⟨3, 0⟩), (2, ⟨4, 0⟩)]⟩

/-- The two-factor graph over `witFA` and `witFB`. -/
def witG : FactorGraph := ⟨[witFA, witFB]⟩

/-- An EPMeanField over the two-factor graph. -/
def witE : EPMeanField := ⟨witG, [(witFA, witMFA), (witFB, witMFB)]⟩

/-- The same EPMeanField with the factor enumeration reversed. -/
def witEswap : EPMeanField := ⟨⟨[witFB, witFA]⟩, [(witFB, witMFB), (witFA, witMFA)]⟩

/-- A second, different EPMeanField over the same graph. -/
def witE2 : EPMeanField := ⟨witG, [(witFA, witMFB), (witFB, witMFA)]⟩

/-- An EPMeanField whose factor MeanField holds the stray variable 7. -/
def witStray : EPMeanField := ⟨⟨[⟨2, [0], []⟩]⟩, [(⟨2, [0], []⟩, ⟨[(7, ⟨1, 1⟩)]⟩)]⟩

/-- An approx-dist mapping covering every variable of `witG`. -/
def witAD : List (Variable × Message) := [(0, ⟨1, 0⟩), (1, ⟨2, 0⟩), (2, ⟨3, 0⟩)]

/-- An approx-dist mapping missing variables 1 and 2 of `witG`. -/
def witADBad : List (Variable × Message) := [(0, ⟨1, 0⟩)]

/-- A concrete per-Message log-norm function for witness instantiation. -/
def witLn : Message → ℚ := fun m => m.eta1 + m.eta2

/-- A store holding the dict of `witE` at reference 0. -/
def witStore : Store := [[(witFA, witMFA), (witFB, witMFB)]]

/-- The referenced EPMeanField whose dict lives at reference 0. -/
def witERef : EPRef := ⟨witG, 0⟩

/-- A factor approximation to project back for `witFA`. -/
def witProj : FactorApproximation := ⟨witFA, witMFB, witMFB, witMFB⟩

/-- A successful status. -/
def witSTrue : Status := ⟨true, []⟩

/-- A failed status. -/
def witSFalse : Status := ⟨false, []⟩

/-! ## Lemmas about MeanField lookup and product -/

theorem lookupVar_append (l1 l2 : List (Variable × Message)) (v : Variable) :
    lookupVar (l1 ++ l2) v =
      (match lookupVar l1 v with
       | some x => some x
       | none => lookupVar l2 v) := by
  induction l1 with
  | nil => simp [lookupVar]
  | cons p rest ih =>
    obtain ⟨k, x⟩ := p
    by_cases h : k = v <;> simp [lookupVar, h, ih]

theorem lookupVar_map_value (l : List (Variable × Message))
    (g : Variable → Message → Message) (v : Variable) :
    lookupVar (l.map (fun p => (p.1, g p.1 p.2))) v = (lookupVar l v).map (g v) := by
  induction l with
  | nil => simp [lookupVar]
  | cons p rest ih =>
    obtain ⟨k, x⟩ := p
    by_cases h : k = v
    · subst h; simp [lookupVar]
    · simp [lookupVar, h, ih]

theorem lookupVar_filter_key (l : List (Variable × Message))
    (pred : Variable → Bool) (v : Variable) :
    lookupVar (l.filter (fun p => pred p.1)) v =
      if pred v then lookupVar l v else none := by
  induction l with
  | nil => simp [lookupVar]
  | cons p rest ih =>
    obtain ⟨k, x⟩ := p
    by_cases h : k = v
    · subst h
      by_cases hp : pred k <;> simp [lookupVar, hp, ih]
    · by_cases hp : pred k <;> simp [lookupVar, h, hp, ih]

theorem append_lookup_combine (o1 o2 : Option Message) :
    (match o1.map (fun x => match o2 with | some y => x * y | none => x) with
     | some x => some x
     | none => if o1.isNone = true then o2 else none) = optMul o1 o2 := by
  cases o1 <;> cases o2 <;> simp [optMul]

theorem get_mulMF (m1 m2 : MeanField) (v : Variable) :
    (m1.mulMF m2).get v = optMul (m1.get v) (m2.get v) := by
  have hmap := lookupVar_map_value m1.entries
    (fun k x => match m2.get k with | some y => x * y | none => x) v
  show lookupVar (List.map _ m1.entries ++ List.filter _ m2.entries) v = _
  rw [lookupVar_append, hmap,
    lookupVar_filter_key m2.entries (fun k => (m1.get k).isNone) v]
  exact append_lookup_combine (m1.get v) (m2.get v)

theorem get_prod (m : MeanField) (ms : List MeanField) (v : Variable) :
    (m.prod ms).get v = ms.foldl (fun o mf => optMul o (mf.get v)) (m.get v) := by
  induction ms generalizing m with
  | nil => rfl
  | cons mf rest ih =>
    show ((m.mulMF mf).prod rest).get v = _
    rw [ih, List.foldl_cons, get_mulMF]

theorem foldl_optMul_acc (ms : List MeanField) (v : Variable) (a : Message) :
    ms.foldl (fun o mf => optMul o (mf.get v)) (some a) =
      some (a * (ms.map (fun mf => (mf.get v).getD 1)).prod) := by
  induction ms generalizing a with
  | nil => simp
  | cons mf rest ih =>
    rw [List.foldl_cons]
    cases h : mf.get v with
    | none =>
      show List.foldl _ (some a) rest = _
      rw [ih]
      simp [h]
    | some b =>
      show List.foldl _ (some (a * b)) rest = _
      rw [ih]
      simp [h, mul_assoc]

theorem get_identity (vs : List Variable) (v : Variable) :
    (MeanField.identity vs).get v = if v ∈ vs then some 1 else none := by
  show lookupVar _ v = _
  rw [MeanField.identity]
  have h : ∀ l : List Variable,
      lookupVar (l.map (fun v => (v, (1 : Message)))) v =
        if v ∈ l then some 1 else none := by
    intro l
    induction l with
    | nil => simp [lookupVar]
    | cons k rest ih =>
      by_cases hk : k = v
      · subst hk; simp [lookupVar]
      · simp [lookupVar, hk, ih, Ne.symm hk]
  rw [h]
  simp [List.mem_dedup]

theorem get_prod_from_identity (vs : List Variable) (ms : List MeanField)
    (v : Variable) (hv : v ∈ vs) :
    ((MeanField.identity vs).prod ms).get v =
      some ((ms.map (fun mf => (mf.get v).getD 1)).prod) := by
  rw [get_prod, get_identity, if_pos hv, foldl_optMul_acc, one_mul]

/-! ## C3: the joint mean field is the seeded product of the factor
mean fields -/

/-- C3: for every EPMeanField, `mean_field` is the product of all factors'
MeanFields seeded with the identity over every variable of the graph: the
entry of any graph variable `v` is the product of every factor MeanField's
entry for `v` (missing entries contributing the identity), and a variable
touched by no factor MeanField keeps the identity message. -/
theorem mean_field_is_seeded_product (e : EPMeanField) (v : Variable)
    (hv : v ∈ e.allVariables) :
    e.meanField.get v =
      some ((e.fmf.map (fun p => (p.2.get v).getD 1)).prod) ∧
    ((∀ p ∈ e.fmf, p.2.get v = none) → e.meanField.get v = some 1) := by
  have h1 : e.meanField.get v =
      some ((e.fmf.map (fun p => (p.2.get v).getD 1)).prod) := by
    rw [EPMeanField.meanField, get_prod_from_identity _ _ _ hv, List.map_map]
    rfl
  refine ⟨h1, fun hall => ?_⟩
  rw [h1]
  have : ∀ x ∈ e.fmf.map (fun p => (p.2.get v).getD 1), x = 1 := by
    intro x hx
    obtain ⟨p, hp, rfl⟩ := List.mem_map.mp hx
    rw [hall p hp]
    rfl
  rw [List.prod_eq_one this]

/-- Closed witness for C3 at the two-factor instance: variable 1 is shared,
its joint entry is the product of both factors' entries. -/
theorem mean_field_is_seeded_product_witness :
    witE.meanField.get 1 =
      some ((witE.fmf.map (fun p => (p.2.get 1).getD 1)).prod) :=
  (mean_field_is_seeded_product witE 1 (by decide)).1

/-! ## Lemmas about the factor-keyed dict -/

theorem optMul_comm (o1 o2 : Option Message) : optMul o1 o2 = optMul o2 o1 := by
  cases o1 <;> cases o2 <;> simp [optMul, mul_comm]

theorem fmfGet_assocSet_self (l : List (Factor × MeanField)) (f : Factor) (d : MeanField) :
    fmfGet (assocSet l f d) f = some d := by
  induction l with
  | nil => simp [assocSet, fmfGet]
  | cons p rest ih =>
    obtain ⟨k, x⟩ := p
    by_cases h : k = f <;> simp [assocSet, fmfGet, h, ih]

theorem fmfErase_assocSet (l : List (Factor × MeanField)) (f : Factor) (d : MeanField) :
    fmfErase (assocSet l f d) f = fmfErase l f := by
  induction l with
  | nil => simp [assocSet, fmfErase]
  | cons p rest ih =>
    obtain ⟨k, x⟩ := p
    by_cases h : k = f
    · subst h
      simp [assocSet, fmfErase]
    · simp [assocSet, fmfErase, h, ih]

/-! ## C1: the factor approximation's cavity and model distributions -/

/-- C1: for a Factor `f` present in the factor mapping,
`factor_approximation` succeeds and returns a FactorApproximation whose
cavity is the product of all the other factors' MeanFields seeded with the
identity MeanField over `f`'s variables, which is therefore defined (and
non-empty) at every variable of `f` even with no peers; `f`'s own
distribution never enters the cavity (replacing it by any distribution over
the same variables leaves the cavity unchanged); and the model distribution
equals `cavity * factor_dist` at every variable. -/
theorem factor_approximation_cavity_model (e : EPMeanField) (f : Factor)
    (dist : MeanField) (h : fmfGet e.fmf f = some dist) :
    ∃ fa, e.factor_approximation f = some fa ∧
      fa.factor = f ∧
      fa.factor_dist = dist ∧
      fa.cavity_dist =
        (MeanField.identity dist.allVariables).prod ((fmfErase e.fmf f).map Prod.snd) ∧
      (∀ v ∈ dist.allVariables, (fa.cavity_dist.get v).isSome = true) ∧
      (∀ dist' : MeanField, dist'.allVariables = dist.allVariables →
        ∃ fa', EPMeanField.factor_approximation ⟨e.factor_graph, assocSet e.fmf f dist'⟩ f
            = some fa' ∧
          fa'.cavity_dist = fa.cavity_dist) ∧
      (∀ v, fa.model_dist.get v = (fa.cavity_dist.mulMF dist).get v) := by
  unfold EPMeanField.factor_approximation
  rw [h]
  refine ⟨_, rfl, rfl, rfl, rfl, ?_, ?_, ?_⟩
  · intro v hv
    rw [get_prod_from_identity _ _ _ hv]
    rfl
  · intro dist' hkeys
    rw [fmfGet_assocSet_self]
    refine ⟨_, rfl, ?_⟩
    show (MeanField.identity dist'.allVariables).prod _ = _
    rw [hkeys, fmfErase_assocSet]
  · intro v
    show (dist.prod [_]).get v = _
    rw [MeanField.prod, List.foldl_cons, List.foldl_nil, get_mulMF, get_mulMF,
      optMul_comm]

/-- Closed witness for C1 at the two-factor instance: the approximation of
`witFA` exists. -/
theorem factor_approximation_cavity_model_witness :
    (witE.factor_approximation witFA).isSome = true := by
  obtain ⟨fa, hfa, -⟩ :=
    factor_approximation_cavity_model witE witFA witMFA (by decide)
  rw [hfa]
  rfl

/-! ## C4: from_approx_dists fails loudly on a missing variable -/

theorem fromApproxEntries_missing (ad : List (Variable × Message)) (vs : List Variable)
    (hv : ∃ v ∈ vs, lookupVar ad v = none) :
    MeanField.fromApproxEntries ad vs = none := by
  induction vs with
  | nil => simp at hv
  | cons v rest ih =>
    obtain ⟨w, hw, hnone⟩ := hv
    rcases List.mem_cons.mp hw with rfl | hw'
    · simp [MeanField.fromApproxEntries, hnone]
    · cases h : lookupVar ad v with
      | none => simp [MeanField.fromApproxEntries, h]
      | some m => simp [MeanField.fromApproxEntries, h, ih ⟨w, hw', hnone⟩]

theorem fromApproxEntries_complete (ad : List (Variable × Message)) (vs : List Variable)
    (h : ∀ v ∈ vs, (lookupVar ad v).isSome = true) :
    ∃ l, MeanField.fromApproxEntries ad vs = some l ∧ l.map Prod.fst = vs := by
  induction vs with
  | nil => exact ⟨[], rfl, rfl⟩
  | cons v rest ih =>
    have hv := h v (List.mem_cons_self v rest)
    cases hl : lookupVar ad v with
    | none => rw [hl] at hv; simp at hv
    | some m =>
      obtain ⟨l, hl2, hmap⟩ := ih (fun w hw => h w (List.mem_cons_of_mem _ hw))
      exact ⟨(v, m) :: l, by simp [MeanField.fromApproxEntries, hl, hl2], by simp [hmap]⟩

theorem fmfFromApprox_missing (ad : List (Variable × Message)) (fs : List Factor)
    (h : ∃ f ∈ fs, ∃ v ∈ f.allVariables, lookupVar ad v = none) :
    fmfFromApprox ad fs = none := by
  induction fs with
  | nil => simp at h
  | cons f rest ih =>
    obtain ⟨f', hf', hv⟩ := h
    rcases List.mem_cons.mp hf' with rfl | hmem
    · have hnone : MeanField.fromApprox f' ad = none := by
        rw [MeanField.fromApprox, fromApproxEntries_missing ad _ hv]
        rfl
      simp [fmfFromApprox, hnone]
    · cases hmf : MeanField.fromApprox f ad with
      | none => simp [fmfFromApprox, hmf]
      | some mf => simp [fmfFromApprox, hmf, ih ⟨f', hmem, hv⟩]

theorem fmfFromApprox_complete (ad : List (Variable × Message)) (fs : List Factor)
    (h : ∀ f ∈ fs, ∀ v ∈ f.allVariables, (lookupVar ad v).isSome = true) :
    ∃ l, fmfFromApprox ad fs = some l ∧ l.map Prod.fst = fs ∧
      ∀ p ∈ l, (p : Factor × MeanField).2.allVariables = p.1.allVariables := by
  induction fs with
  | nil => exact ⟨[], rfl, rfl, by simp⟩
  | cons f rest ih =>
    obtain ⟨ents, hents, hkeys⟩ :=
      fromApproxEntries_complete ad f.allVariables (h f (List.mem_cons_self f rest))
    obtain ⟨l, hl, hmap, hall⟩ := ih (fun f' hf' => h f' (List.mem_cons_of_mem _ hf'))
    refine ⟨(f, ⟨ents⟩) :: l, ?_, by simp [hmap], ?_⟩
    · simp [fmfFromApprox, MeanField.fromApprox, hents, hl]
    · intro p hp
      rcases List.mem_cons.mp hp with rfl | hp'
      · exact hkeys
      · exact hall p hp'

/-- C4: `from_approx_dists` raises a missing-key error whenever some factor
of the graph touches a variable with no entry in the supplied mapping, and
when every touched variable has an entry it returns an EPMeanField over the
graph in which each factor's MeanField has keys equal to exactly that
factor's touched variables. -/
theorem from_approx_dists_missing_key (g : FactorGraph) (ad : List (Variable × Message)) :
    ((∃ f ∈ g.factors, ∃ v ∈ f.allVariables, lookupVar ad v = none) →
      EPMeanField.from_approx_dists g ad = none) ∧
    ((∀ f ∈ g.factors, ∀ v ∈ f.allVariables, (lookupVar ad v).isSome = true) →
      ∃ e, EPMeanField.from_approx_dists g ad = some e ∧
        e.factor_graph = g ∧
        e.fmf.map Prod.fst = g.factors ∧
        ∀ p ∈ e.fmf, (p : Factor × MeanField).2.allVariables = p.1.allVariables) := by
  constructor
  · intro hmiss
    rw [EPMeanField.from_approx_dists, fmfFromApprox_missing ad g.factors hmiss]
    rfl
  · intro hall
    obtain ⟨l, hl, hmap, hkeys⟩ := fmfFromApprox_complete ad g.factors hall
    exact ⟨⟨g, l⟩, by rw [EPMeanField.from_approx_dists, hl]; rfl, rfl, hmap, hkeys⟩

/-- Closed witness for C4: the mapping missing variables 1 and 2 makes
construction fail, the complete mapping makes it succeed. -/
theorem from_approx_dists_missing_key_witness :
    EPMeanField.from_approx_dists witG witADBad = none ∧
    (EPMeanField.from_approx_dists witG witAD).isSome = true := by
  constructor
  · exact (from_approx_dists_missing_key witG witADBad).1
      ⟨witFA, by decide, 1, by decide, by decide⟩
  · obtain ⟨e, he, -⟩ := (from_approx_dists_missing_key witG witAD).2 (by decide)
    rw [he]
    rfl

/-! ## C5: log_evidence is invariant under enumeration order -/

theorem any_perm_eq {α : Type} (l₁ l₂ : List α) (p : α → Bool) (h : l₁.Perm l₂) :
    l₁.any p = l₂.any p := by
  rw [Bool.eq_iff_iff]
  simp only [List.any_eq_true]
  constructor
  · rintro ⟨x, hx, hp⟩
    exact ⟨x, h.mem_iff.mp hx, hp⟩
  · rintro ⟨x, hx, hp⟩
    exact ⟨x, h.mem_iff.mpr hx, hp⟩

/-- C5: the scalar computed by `log_evidence` is invariant under any
permutation of the order in which the factors (and with them the derived
variable enumeration) appear: permuting both the graph's factor list and
the factor-mean-field entries yields the same result, error or value. -/
theorem log_evidence_enumeration_invariant (ln : Message → ℚ)
    (g g' : FactorGraph) (fmf fmf' : List (Factor × MeanField))
    (hf : g'.factors.Perm g.factors) (hm : fmf'.Perm fmf) :
    EPMeanField.log_evidence ln ⟨g', fmf'⟩ = EPMeanField.log_evidence ln ⟨g, fmf⟩ := by
  have hp : g'.allVariables.Perm g.allVariables :=
    ((hf.map Factor.allVariables).flatten).dedup
  have hvef : EPMeanField.variableEvidence ln ⟨g', fmf'⟩
      = EPMeanField.variableEvidence ln ⟨g, fmf⟩ := by
    funext v
    have hmsg : (EPMeanField.variableMessages ⟨g', fmf'⟩ v).Perm
        (EPMeanField.variableMessages ⟨g, fmf⟩ v) :=
      (hm.map _).flatten
    show logNormalisation ln _ = logNormalisation ln _
    rw [logNormalisation, logNormalisation, hmsg.prod_eq]
  have hstray : (⟨g', fmf'⟩ : EPMeanField).hasStrayKey
      = (⟨g, fmf⟩ : EPMeanField).hasStrayKey := by
    have hfun : (fun p : Factor × MeanField =>
        p.2.entries.any (fun q => !(decide (q.1 ∈ g'.allVariables)))) =
        (fun p : Factor × MeanField =>
        p.2.entries.any (fun q => !(decide (q.1 ∈ g.allVariables)))) := by
      funext p
      congr 1
      funext q
      congr 1
      exact decide_eq_decide.mpr hp.mem_iff
    show fmf'.any (fun p : Factor × MeanField =>
        p.2.entries.any (fun q => !(decide (q.1 ∈ g'.allVariables)))) =
      fmf.any (fun p : Factor × MeanField =>
        p.2.entries.any (fun q => !(decide (q.1 ∈ g.allVariables))))
    rw [hfun]
    exact any_perm_eq _ _ _ hm
  have hcore : EPMeanField.logEvidenceCore ln ⟨g', fmf'⟩
      = EPMeanField.logEvidenceCore ln ⟨g, fmf⟩ := by
    show (fmf'.map (fun p => MeanField.log_norm ln p.2 -
        (p.1.allVariables.map (EPMeanField.variableEvidence ln ⟨g', fmf'⟩)).sum)).sum +
      (g'.allVariables.map (EPMeanField.variableEvidence ln ⟨g', fmf'⟩)).sum =
      (fmf.map (fun p => MeanField.log_norm ln p.2 -
        (p.1.allVariables.map (EPMeanField.variableEvidence ln ⟨g, fmf⟩)).sum)).sum +
      (g.allVariables.map (EPMeanField.variableEvidence ln ⟨g, fmf⟩)).sum
    rw [hvef, (hm.map _).sum_eq, (hp.map _).sum_eq]
  unfold EPMeanField.log_evidence
  rw [hstray, hcore]

/-- Closed witness for C5: reversing the two factors (in the graph and in
the mapping) leaves the evidence unchanged. -/
theorem log_evidence_enumeration_invariant_witness :
    EPMeanField.log_evidence witLn witEswap = EPMeanField.log_evidence witLn witE :=
  log_evidence_enumeration_invariant witLn witG ⟨[witFB, witFA]⟩
    witE.fmf witEswap.fmf (by decide) (by decide)

/-! ## C8: the diagnostic repr never propagates a log_evidence failure -/

/-- C8: when the raw `log_evidence` computation of an EPMeanField raises,
the diagnostic repr does not propagate the exception: it renders the
evidence as NaN, and (being a total function) building the repr string
always succeeds. -/
theorem repr_catches_log_evidence_failure (ln : Message → ℚ) (e : EPMeanField)
    (err : Unit) (h : e.log_evidence ln = Except.error err) :
    e.reprString ln =
      "EPMeanField(" ++ toString (repr e.factor_graph) ++ ", log_evidence=" ++ "nan" ++ ")" := by
  unfold EPMeanField.reprString
  rw [h]

/-- Closed witness for C8: a stray variable in a factor MeanField makes the
raw evidence computation raise, yet the repr string is built with NaN. -/
theorem repr_catches_log_evidence_failure_witness :
    witStray.log_evidence witLn = Except.error () ∧
    witStray.reprString witLn =
      "EPMeanField(" ++ toString (repr witStray.factor_graph) ++ ", log_evidence=" ++ "nan" ++ ")" :=
  ⟨by rfl, repr_catches_log_evidence_failure witLn witStray () (by rfl)⟩

/-! ## Store lemmas for the aliasing claims -/

theorem readDict_concat_length (s : Store) (c : List (Factor × MeanField)) :
    readDict (s ++ [c]) s.length = c := by
  simp [readDict, List.getD, List.getElem?_concat_length]

theorem readDict_append_left (s : Store) (c : List (Factor × MeanField)) (r : Nat)
    (h : r < s.length) :
    readDict (s ++ [c]) r = readDict s r := by
  simp [readDict, List.getD, List.getElem?_append_left, h]

theorem readDict_set_ne (s : Store) (i j : Nat) (c : List (Factor × MeanField))
    (h : i ≠ j) : readDict (s.set i c) j = readDict s j := by
  simp [readDict, List.getD, List.getElem?_set_ne h]

theorem store_set_concat (s : Store) (c nc : List (Factor × MeanField)) :
    (s ++ [c]).set s.length nc = s ++ [nc] := by
  rw [List.set_append_right]
  · simp
  · omega

/-! ## C2: project_factor_approx builds a new EPMeanField and mutates
nothing -/

/-- C2: `project_factor_approx` returns, together with the passed status, a
new EPMeanField whose factor-mean-field dict equals the old one with only
the projection's factor replaced by its factor distribution; the original
EPMeanField is not mutated — afterwards its dict contents, its entry for the
projected factor and its `mean_field` are unchanged. -/
theorem project_factor_approx_no_mutation (e : EPRef) (p : FactorApproximation)
    (status : Option Status) (s : Store) (h : e.fmfRef < s.length) :
    (e.project_factor_approx p status s).1.2 = status ∧
    ((e.project_factor_approx p status s).1.1).readFMF (e.project_factor_approx p status s).2
      = assocSet (e.readFMF s) p.factor p.factor_dist ∧
    e.readFMF (e.project_factor_approx p status s).2 = e.readFMF s ∧
    fmfGet (e.readFMF (e.project_factor_approx p status s).2) p.factor
      = fmfGet (e.readFMF s) p.factor ∧
    EPMeanField.meanField ⟨e.factor_graph, e.readFMF (e.project_factor_approx p status s).2⟩
      = EPMeanField.meanField ⟨e.factor_graph, e.readFMF s⟩ := by
  have hs2 : (e.project_factor_approx p status s).2
      = s ++ [assocSet (e.readFMF s) p.factor p.factor_dist] := by
    show dictSetAt (s ++ [e.readFMF s]) s.length p.factor p.factor_dist = _
    rw [dictSetAt, readDict_concat_length, store_set_concat]
  have hold : e.readFMF (e.project_factor_approx p status s).2 = e.readFMF s := by
    show readDict (e.project_factor_approx p status s).2 e.fmfRef = _
    rw [hs2]
    exact readDict_append_left s _ e.fmfRef h
  refine ⟨rfl, ?_, hold, by rw [hold], by rw [hold]⟩
  show readDict (e.project_factor_approx p status s).2 s.length = _
  rw [hs2, readDict_concat_length]

/-- Closed witness for C2 at the concrete one-dict store. -/
theorem project_factor_approx_no_mutation_witness :
    (witERef.project_factor_approx witProj (some witSTrue) witStore).1.2 = some witSTrue ∧
    witERef.readFMF (witERef.project_factor_approx witProj (some witSTrue) witStore).2
      = witERef.readFMF witStore :=
  have h := project_factor_approx_no_mutation witERef witProj (some witSTrue) witStore
    (by decide)
  ⟨h.1, h.2.2.1⟩

/-! ## C10: the factor_mean_field property returns a fresh copy -/

/-- C10: the dict returned by the `factor_mean_field` property is a fresh
copy of the internal mapping: it holds the same contents, and overwriting
the returned dict with arbitrary new contents (which subsumes adding,
removing or replacing entries) leaves the EPMeanField's own dict, and with
it its `mean_field`, `log_evidence` and `factor_approximation` results,
unchanged. -/
theorem factor_mean_field_is_copy (e : EPRef) (s : Store)
    (mutated : List (Factor × MeanField)) (h : e.fmfRef < s.length) :
    readDict (e.factorMeanFieldProp s).2 (e.factorMeanFieldProp s).1 = e.readFMF s ∧
    e.readFMF ((e.factorMeanFieldProp s).2.set (e.factorMeanFieldProp s).1 mutated)
      = e.readFMF s ∧
    EPMeanField.meanField
        ⟨e.factor_graph,
         e.readFMF ((e.factorMeanFieldProp s).2.set (e.factorMeanFieldProp s).1 mutated)⟩
      = EPMeanField.meanField ⟨e.factor_graph, e.readFMF s⟩ ∧
    (∀ ln, EPMeanField.log_evidence ln
        ⟨e.factor_graph,
         e.readFMF ((e.factorMeanFieldProp s).2.set (e.factorMeanFieldProp s).1 mutated)⟩
      = EPMeanField.log_evidence ln ⟨e.factor_graph, e.readFMF s⟩) ∧
    (∀ f, EPMeanField.factor_approximation
        ⟨e.factor_graph,
         e.readFMF ((e.factorMeanFieldProp s).2.set (e.factorMeanFieldProp s).1 mutated)⟩ f
      = EPMeanField.factor_approximation ⟨e.factor_graph, e.readFMF s⟩ f) := by
  have hcopy : readDict (e.factorMeanFieldProp s).2 (e.factorMeanFieldProp s).1
      = e.readFMF s := by
    show readDict (s ++ [e.readFMF s]) s.length = _
    exact readDict_concat_length s _
  have hkey : e.readFMF ((e.factorMeanFieldProp s).2.set (e.factorMeanFieldProp s).1 mutated)
      = e.readFMF s := by
    show readDict ((s ++ [e.readFMF s]).set s.length mutated) e.fmfRef = _
    rw [readDict_set_ne _ _ _ _ (by omega)]
    exact readDict_append_left s _ e.fmfRef h
  exact ⟨hcopy, hkey, by rw [hkey], fun ln => by rw [hkey], fun f => by rw [hkey]⟩

/-- Closed witness for C10: emptying the copied dict leaves the original's
contents intact. -/
theorem factor_mean_field_is_copy_witness :
    witERef.readFMF ((witERef.factorMeanFieldProp witStore).2.set
        (witERef.factorMeanFieldProp witStore).1 [])
      = witERef.readFMF witStore :=
  (factor_mean_field_is_copy witERef witStore [] (by decide)).2.1

/-! ## C7: FactorHistory treats failures as transparent -/

theorem runRecords_successes (h0 : FactorHistory) (rs : List (EPMeanField × Status)) :
    (h0.runRecords rs).successes
      = h0.successes ++ (rs.filter (fun r => r.2.toBool)).map Prod.fst := by
  induction rs generalizing h0 with
  | nil => simp [FactorHistory.runRecords]
  | cons r rest ih =>
    show ((h0.record r.1 r.2).runRecords rest).successes = _
    rw [ih]
    cases hr : r.2.toBool <;>
      simp [FactorHistory.record, List.filter_cons, hr]

/-- C7: after recording exactly one entry with a truthy status,
`latest_successful` is that entry and `previous_successful` errors; and
entries recorded with a falsy status are transparent — for any record
sequence whose truthy entries are exactly `s1` then `s2`,
`latest_successful` is `s2` and `previous_successful` is `s1`, exactly as
if the failures had never been recorded. -/
theorem factor_history_failures_transparent (f : Factor) :
    (∀ (a : EPMeanField) (st : Status), st.toBool = true →
      ((FactorHistory.empty f).record a st).latest_successful = some a ∧
      ((FactorHistory.empty f).record a st).previous_successful = none) ∧
    (∀ (rs : List (EPMeanField × Status)) (s1 s2 : EPMeanField),
      (rs.filter (fun r => r.2.toBool)).map Prod.fst = [s1, s2] →
      ((FactorHistory.empty f).runRecords rs).latest_successful = some s2 ∧
      ((FactorHistory.empty f).runRecords rs).previous_successful = some s1) := by
  constructor
  · intro a st hst
    constructor
    · simp [FactorHistory.record, FactorHistory.empty,
        FactorHistory.latest_successful, hst]
    · simp [FactorHistory.record, FactorHistory.empty,
        FactorHistory.previous_successful, hst]
  · intro rs s1 s2 hfilter
    have hs := runRecords_successes (FactorHistory.empty f) rs
    rw [hfilter] at hs
    constructor
    · rw [FactorHistory.latest_successful, hs]
      rfl
    · rw [FactorHistory.previous_successful, hs]
      rfl

/-- Closed witness for C7: success, success, then an interleaved failure
leave the latest and previous successful entries as the two successes. -/
theorem factor_history_failures_transparent_witness :
    ((FactorHistory.empty witFA).runRecords
        [(witE, witSTrue), (witE, witSFalse), (witE2, witSTrue)]).latest_successful
      = some witE2 ∧
    ((FactorHistory.empty witFA).runRecords
        [(witE, witSTrue), (witE, witSFalse), (witE2, witSTrue)]).previous_successful
      = some witE :=
  (factor_history_failures_transparent witFA).2
    [(witE, witSTrue), (witE, witSFalse), (witE2, witSTrue)] witE witE2 (by decide)

/-! ## C9: ModelObject identity semantics -/

theorem mkModelObjects_ids (c n : Nat) :
    (mkModelObjects c n).1.map ModelObject.id = List.range' c n := by
  induction n generalizing c with
  | zero => rfl
  | succ n ih =>
    show (⟨c⟩ :: (mkModelObjects (c + 1) n).1).map ModelObject.id = _
    rw [List.map_cons, ih, List.range'_succ]

/-- C9: ModelObjects have identity-based equality and hashing: hash equals
the id, equality holds exactly on equal ids (so an object equals itself),
each construction draws the current counter value and advances the counter,
and the ids of any run of fresh constructions are consecutive and pairwise
distinct — independently constructed objects are never equal. -/
theorem model_object_identity_semantics :
    (∀ x : ModelObject, x.hashValue = x.id) ∧
    (∀ x y : ModelObject, (x.eq y = true) ↔ x.id = y.id) ∧
    (∀ x : ModelObject, x.eq x = true) ∧
    (∀ c : Nat, (mkModelObject c).1.id = c ∧ (mkModelObject c).2 = c + 1) ∧
    (∀ c n : Nat, (mkModelObjects c n).1.map ModelObject.id = List.range' c n ∧
      (mkModelObjects c n).1.Pairwise (fun x y => x.eq y = false)) := by
  refine ⟨fun x => rfl, ?_, fun x => by simp [ModelObject.eq], fun c => ⟨rfl, rfl⟩, ?_⟩
  · intro x y
    simp [ModelObject.eq]
  · intro c n
    refine ⟨mkModelObjects_ids c n, ?_⟩
    have hlt : ((mkModelObjects c n).1.map ModelObject.id).Pairwise (· < ·) := by
      rw [mkModelObjects_ids]
      exact List.pairwise_lt_range' c n
    have hid : (mkModelObjects c n).1.Pairwise (fun x y => x.id < y.id) :=
      List.pairwise_map.mp hlt
    exact hid.imp (fun hxy => beq_eq_false_iff_ne.mpr (Nat.ne_of_lt hxy))

/-! ## C6: the Sherman-Morrison log_det diverges from the determinant
identity -/

/-- C6 evaluated at the claim's instance D = diag(2, 2), u = (1, 0): the
code's `inv_scale = 1 + linear.quad(vec)` is the vector (5, 1) — `quad`
multiplies by D, not by D⁻¹, and never reduces to the scalar quadratic
form, whose value is 3/2 — so neither component of the broadcast `log_det`
equals the scalar `log_det(D) + log(1 + uᵗ D⁻¹ u)` the claim requires,
while the apply path does agree exactly with the dense computation
`(D + u uᵗ) @ x` at x = (1, 2). -/
theorem shermanMorrison_log_det_bug :
    smInvScale ![2, 2] ![1, 0] = ![5, 1] ∧
    ((1 : ℚ) + ∑ i, (![1, 0] : Vec2) i * (1 / (![2, 2] : Vec2) i) * (![1, 0] : Vec2) i)
      = 3 / 2 ∧
    (∀ i, smLogDet ![2, 2] ![1, 0] i ≠ smLogDetSpec ![2, 2] ![1, 0]) ∧
    smMul ![2, 2] ![1, 0] ![1, 2] = denseMulVec (denseSM ![2, 2] ![1, 0]) ![1, 2] := by
  have hq : ((1 : ℚ) + ∑ i, (![1, 0] : Vec2) i * (1 / (![2, 2] : Vec2) i) * (![1, 0] : Vec2) i)
      = 3 / 2 := by
    rw [Fin.sum_univ_two]
    norm_num
  have hinv : smInvScale ![2, 2] ![1, 0] = ![5, 1] := by
    funext i
    fin_cases i <;>
      norm_num [smInvScale, diagQuad, diagRMul, Matrix.cons_val_zero,
        Matrix.cons_val_one, Matrix.head_cons]
  refine ⟨hinv, hq, ?_, ?_⟩
  · intro i
    unfold smLogDet smLogDetSpec
    rw [hinv, hq]
    fin_cases i
    · simp only [ne_eq, add_right_inj, Fin.zero_eta, Matrix.cons_val_zero]
      push_cast
      exact (Real.log_lt_log (by norm_num) (by norm_num)).ne'
    · simp only [ne_eq, add_right_inj, Fin.mk_one, Matrix.cons_val_one,
        Matrix.head_cons, Rat.cast_one, Real.log_one]
      push_cast
      exact fun h0 => (Real.log_pos (by norm_num)).ne' h0.symm
  · funext i
    fin_cases i <;>
      norm_num [smMul, diagMul, outerMul, denseMulVec, denseSM, Fin.sum_univ_two,
        Matrix.cons_val_zero, Matrix.cons_val_one, Matrix.head_cons]

end PyAutoFit
